import Mathlib

/-!
Verification of the time-series merge / windowing engine of the chess
dashboard (`series.js`): `mergeSeries`, `sliceSeriesByTimeframe`,
`buildChartDataForView` and `calculateYAxisDomain`.

Dates are ISO `YYYY-MM-DD` strings and the JavaScript code compares them
with the built-in string order.  `String.<` in Lean does not reduce in the
kernel, so the embedding uses an executable lexicographic comparison on
`String.data` (`strLt` / `strLe`) which is proved to agree with Mathlib's
linear order on `String` (`strLt_iff`, `strLe_iff`).  For the ASCII date
keys used here this coincides with the JavaScript UTF-16 code-unit order.

JavaScript objects keyed by username are modelled as association lists
`List (String × ...)`; `null` ratings are `Option Int` (`none` = null).
-/

/-- Executable strict lexicographic order on char lists, mirroring the
JavaScript string comparison (and Lean's `List.lt`). -/
def listCharLt : List Char → List Char → Bool
  | [], [] => false
  | [], _ :: _ => true
  | _ :: _, [] => false
  | a :: as, b :: bs => if a < b then true else if b < a then false else listCharLt as bs

/-- Executable strict order on strings: the JavaScript `<` on strings. -/
def strLt (a b : String) : Bool := listCharLt a.data b.data

/-- Executable `<=` on strings: the JavaScript `<=` on strings. -/
def strLe (a b : String) : Bool := !(listCharLt b.data a.data)

theorem listCharLt_iff (a b : List Char) : listCharLt a b = true ↔ a < b := by
  induction a generalizing b with
  | nil =>
    cases b with
    | nil =>
      constructor
      · intro h; simp [listCharLt] at h
      · intro h; cases h
    | cons c cs =>
      simp only [listCharLt, true_iff]
      exact List.Lex.nil
  | cons x xs ih =>
    cases b with
    | nil =>
      constructor
      · intro h; simp [listCharLt] at h
      · intro h; cases h
    | cons c cs =>
      simp only [listCharLt]
      rcases lt_trichotomy x c with hxc | heq | hcx
      · simp only [if_pos hxc, true_iff]
        exact List.Lex.rel hxc
      · subst heq
        simp only [lt_irrefl, if_false, ih]
        constructor
        · exact fun h => List.Lex.cons h
        · intro h
          cases h with
          | cons h => exact h
          | rel h => exact absurd h (lt_irrefl x)
      · have hxc : ¬ x < c := not_lt_of_gt hcx
        rw [if_neg hxc, if_pos hcx]
        refine iff_of_false (by simp) ?_
        intro h
        cases h with
        | cons h => exact absurd hcx (lt_irrefl _)
        | rel h => exact absurd h hxc

theorem strLt_iff {a b : String} : strLt a b = true ↔ a < b := by
  rw [String.lt_iff_toList_lt]
  rw [show a.toList = a.data from rfl, show b.toList = b.data from rfl]
  exact listCharLt_iff a.data b.data

theorem strLe_iff {a b : String} : strLe a b = true ↔ a ≤ b := by
  rw [String.le_iff_toList_le, ← not_lt]
  rw [show a.toList = a.data from rfl, show b.toList = b.data from rfl]
  rw [← listCharLt_iff]
  simp [strLe]

theorem strLe_false_iff {a b : String} : strLe a b = false ↔ b < a := by
  rw [← Bool.not_eq_true (strLe a b), strLe_iff, not_le]

/-- A single `(date, rating)` observation of one player, as produced by the
history provider. -/
structure Obs where
  date : String
  rating : Int
deriving DecidableEq, Repr

/-- One row of the merged table: the JavaScript object
`{ date, [username]: rating | null }`, with the player fields kept as an
association list in insertion order. -/
structure MergedRow where
  date : String
  values : List (String × Option Int)
deriving DecidableEq, Repr

/-- Reading a field of a row object: `row[u]`.  `none` means the key is
absent (JS `undefined`), `some none` means the field holds `null`. -/
def getField (vals : List (String × Option Int)) (u : String) : Option (Option Int) :=
  (vals.find? (fun p => p.1 == u)).map (·.2)

/-- `seriesByUser[player.username] || []`: association-list lookup with the
empty series as default. -/
def lookupSeries (seriesByUser : List (String × List Obs)) (u : String) : List Obs :=
  ((seriesByUser.find? (fun p => p.1 == u)).map (·.2)).getD []

/-- Insert a date into a sorted list of dates (used to model
`[...allDates].sort()`; JavaScript's sort is specified only up to producing
a sorted permutation, which insertion sort realises executably). -/
def insertDate (d : String) : List String → List String
  | [] => [d]
  | e :: es => if strLe d e then d :: e :: es else e :: insertDate d es

/-- Sort a list of dates ascending (the model of `Array.prototype.sort` on
the deduplicated date set). -/
def sortDates (l : List String) : List String := l.foldr insertDate []

/-- `const allDates = new Set(); ...; const sortedDates = [...allDates].sort()`:
all dates occurring in any input series, deduplicated and sorted ascending. -/
def sortedDates (seriesByUser : List (String × List Obs)) : List String :=
  sortDates (((seriesByUser.flatMap Prod.snd).map Obs.date).dedup)

/-- The `while (pointer < series.length && series[pointer].date <= date)`
loop of `mergeSeries`, modelled structurally on the remaining suffix of the
series: returns the number of consumed observations and the updated
`lastSeen` value. -/
def advanceRun (d : String) : List Obs → Option Int → Nat × Option Int
  | [], ls => (0, ls)
  | o :: rest, ls =>
    if strLe o.date d then
      let r := advanceRun d rest (some o.rating)
      (r.1 + 1, r.2)
    else (0, ls)

/-- Advancing the per-player cursor from index `ptr`: the loop body of
`mergeSeries` for one player and one row date. -/
def advance (s : List Obs) (d : String) (ptr : Nat) (ls : Option Int) : Nat × Option Int :=
  let r := advanceRun d (s.drop ptr) ls
  (ptr + r.1, r.2)

/-- The `for (const player of players)` loop inside one row of
`mergeSeries`: builds the row's `(username, value)` fields and threads the
`pointerByUser` / `lastSeen` state. -/
def processPlayers (lookup : String → List Obs) (d : String) :
    List String → (String → Nat) → (String → Option Int) →
    List (String × Option Int) × (String → Nat) × (String → Option Int)
  | [], ptrs, seen => ([], ptrs, seen)
  | u :: us, ptrs, seen =>
    let r := advance (lookup u) d (ptrs u) (seen u)
    let ptrs' := Function.update ptrs u r.1
    let seen' := Function.update seen u r.2
    let rest := processPlayers lookup d us ptrs' seen'
    ((u, r.2) :: rest.1, rest.2)

/-- The `sortedDates.map((date) => ...)` loop of `mergeSeries`, threading
the cursor state through the rows. -/
def mergeRows (players : List String) (lookup : String → List Obs) :
    List String → (String → Nat) → (String → Option Int) → List MergedRow
  | [], _, _ => []
  | d :: ds, ptrs, seen =>
    let r := processPlayers lookup d players ptrs seen
    ⟨d, r.1⟩ :: mergeRows players lookup ds r.2.1 r.2.2

/-- `mergeSeries(players, seriesByUser)`: merge per-player series into one
date-aligned, forward-filled table. -/
def mergeSeries (players : List String) (seriesByUser : List (String × List Obs)) :
    List MergedRow :=
  mergeRows players (lookupSeries seriesByUser) (sortedDates seriesByUser)
    (fun _ => 0) (fun _ => none)

example :
    mergeSeries ["alpha", "beta"]
      [("alpha", [⟨"2025-01-01", 1000⟩, ⟨"2025-01-03", 1010⟩]),
       ("beta", [⟨"2025-01-02", 900⟩])] =
      [⟨"2025-01-01", [("alpha", some 1000), ("beta", none)]⟩,
       ⟨"2025-01-02", [("alpha", some 1000), ("beta", some 900)]⟩,
       ⟨"2025-01-03", [("alpha", some 1010), ("beta", some 900)]⟩] := by decide

/-- A timeframe option `{ key, months }`; `months = none` models
`months: null` (full history). -/
structure TimeframeSpec where
  key : String
  months : Option Int
deriving DecidableEq, Repr

/-- A calendar timestamp in UTC, modelling the JavaScript `Date` used by
`sliceSeriesByTimeframe` (the host is assumed to run with a UTC local
timezone, as the specification's "start of its calendar day (UTC)" and the
repository's tests do).  `month` is 0-based as in `Date.getMonth`. -/
structure JsDate where
  year : Int
  month : Int
  day : Int
  hour : Int
  minute : Int
  second : Int
deriving DecidableEq, Repr

/-- The Gregorian leap-year rule used by the host calendar. -/
def isLeapYear (y : Int) : Bool :=
  y % 4 == 0 && (y % 100 != 0 || y % 400 == 0)

/-- Days in a (0-based) month of a given year. -/
def daysInMonth (y m : Int) : Int :=
  if m == 1 then (if isLeapYear y then 29 else 28)
  else if m == 3 || m == 5 || m == 8 || m == 10 then 30
  else 31

/-- `date.setHours(0, 0, 0, 0)`: truncate to the start of the calendar day. -/
def truncToDay (d : JsDate) : JsDate :=
  { d with hour := 0, minute := 0, second := 0 }

/-- `date.setMonth(v)`: set the (possibly out-of-range) month number `v`,
normalising the year and rolling an overflowing day-of-month into the
following month exactly as the JavaScript `Date` engine does (for in-range
days 1..31 a single roll suffices). -/
def setMonthJs (d : JsDate) (v : Int) : JsDate :=
  let y := d.year + v.fdiv 12
  let m := v.emod 12
  if d.day > daysInMonth y m then
    if m == 11 then
      { d with year := y + 1, month := 0, day := d.day - daysInMonth y m }
    else
      { d with year := y, month := m + 1, day := d.day - daysInMonth y m }
  else
    { d with year := y, month := m }

/-- Zero-pad a (month or day) number to two digits. -/
def pad2 (n : Int) : String :=
  if n < 10 then "0" ++ toString n else toString n

/-- `date.toISOString().slice(0, 10)`: the `YYYY-MM-DD` key of a date
(years of the relevant range are four digits already). -/
def toIsoDayKey (d : JsDate) : String :=
  toString d.year ++ "-" ++ pad2 (d.month + 1) ++ "-" ++ pad2 d.day

/-- The cutoff key computed by `sliceSeriesByTimeframe`: `now` truncated to
the start of its day, stepped back by `months` calendar months, formatted
as an ISO day key. -/
def cutoffKeyOf (now : JsDate) (months : Int) : String :=
  let t := truncToDay now
  toIsoDayKey (setMonthJs t (t.month - months))

/-- `sliceSeriesByTimeframe(chartData, timeframe, timeframes, now)`: trim a
merged table to the trailing window named by `timeframe`, synthesizing a
boundary row at the cutoff date.  `chartData.slice(-1)` is
`drop (length - 1)`; `findIndex` returning `-1` is `findIdx? = none`;
the `!selected?.months` guard is falsy for a missing spec, `null` months
and `0` months. -/
def sliceSeriesByTimeframe (chartData : List MergedRow) (timeframe : String)
    (timeframes : List TimeframeSpec) (now : JsDate) : List MergedRow :=
  if timeframe == "all" || chartData.length == 0 then chartData
  else
    match timeframes.find? (fun o => o.key == timeframe) with
    | none => chartData
    | some selected =>
      match selected.months with
      | none => chartData
      | some m =>
        if m == 0 then chartData
        else
          let cutoffKey := cutoffKeyOf now m
          match chartData.findIdx? (fun row => strLe cutoffKey row.date) with
          | none => chartData.drop (chartData.length - 1)
          | some startIndex =>
            let sliced := chartData.drop startIndex
            if 0 < startIndex then
              match chartData.get? (startIndex - 1) with
              | some prev => { prev with date := cutoffKey } :: sliced
              | none => sliced
            else sliced

/-- Overwrite (or, for a key absent from the row object, add) a field of a
row object: `next[u] = v`. -/
def setField : List (String × Option Int) → String → Option Int → List (String × Option Int)
  | [], u, v => [(u, v)]
  | p :: rest, u, v => if p.1 == u then (u, v) :: rest else p :: setField rest u v

/-- `buildChartDataForView(timeframeData, players, hiddenPlayers)`: null
out the fields of hidden players, row by row.  The hidden set is modelled
by a list queried with `contains` (JS `Set.has`). -/
def buildChartDataForView (timeframeData : List MergedRow) (players : List String)
    (hiddenPlayers : List String) : List MergedRow :=
  timeframeData.map (fun row =>
    ⟨row.date, players.foldl (fun vals u =>
      if hiddenPlayers.contains u then setField vals u none else vals) row.values⟩)

/-- The `values` array collected by `calculateYAxisDomain`: every numeric
field of an active player, in row order then player order.  A `null` field
(`some none`) and an absent field (`none`) both fail the
`typeof value === "number"` test. -/
def collectValues (chartDataForView : List MergedRow) (activePlayers : List String) : List Int :=
  chartDataForView.foldl (fun acc row =>
    activePlayers.foldl (fun acc u =>
      match getField row.values u with
      | some (some v) => acc ++ [v]
      | _ => acc) acc) []

/-- `calculateYAxisDomain(chartDataForView, activePlayers)`: a padded,
rounded plotting range.  `Math.floor(x / 100)` on these integer inputs is
`Int.fdiv x 100`, and `Math.ceil(x / 100)` is `-((-x).fdiv 100)`. -/
def calculateYAxisDomain (chartDataForView : List MergedRow) (activePlayers : List String) :
    Int × Int :=
  match collectValues chartDataForView activePlayers with
  | [] => (0, 2000)
  | v :: vs =>
    let minValue := vs.foldl min v
    let maxValue := vs.foldl max v
    let lower := max 0 ((minValue - 40).fdiv 100 * 100)
    let upper := -((-(maxValue + 40)).fdiv 100) * 100
    if upper ≤ lower then (lower, lower + 100) else (lower, upper)

example :
    sliceSeriesByTimeframe
      [⟨"2025-01-01", [("alpha", some 1000), ("beta", some 900)]⟩,
       ⟨"2025-02-01", [("alpha", some 1010), ("beta", some 920)]⟩,
       ⟨"2025-03-01", [("alpha", some 1020), ("beta", some 940)]⟩]
      "1m" [⟨"1m", some 1⟩, ⟨"all", none⟩] ⟨2025, 2, 15, 12, 0, 0⟩ =
      [⟨"2025-02-15", [("alpha", some 1010), ("beta", some 920)]⟩,
       ⟨"2025-03-01", [("alpha", some 1020), ("beta", some 940)]⟩] := by decide

example :
    buildChartDataForView [⟨"2025-01-01", [("alpha", some 1000), ("beta", some 900)]⟩]
      ["alpha", "beta"] ["beta"] =
      [⟨"2025-01-01", [("alpha", some 1000), ("beta", none)]⟩] := by decide

example :
    calculateYAxisDomain
      [⟨"2025-01-01", [("alpha", some 1010), ("beta", some 940)]⟩,
       ⟨"2025-01-02", [("alpha", some 1142), ("beta", some 980)]⟩]
      ["alpha", "beta"] = (900, 1200) := by decide

/-- The cursor position a player's series reaches after all observations
with date at most `d` have been consumed. -/
def cntD (s : List Obs) (d : String) : Nat :=
  (s.takeWhile (fun o => strLe o.date d)).length

/-- The `lastSeen` value for a player once every observation with date at
most `d` has been consumed. -/
def lastD (s : List Obs) (d : String) : Option Int :=
  ((s.takeWhile (fun o => strLe o.date d)).getLast?).map Obs.rating

/-- The `lastSeen` value after additionally consuming the observations `w`
starting from value `ls`. -/
def seenAfter (w : List Obs) (ls : Option Int) : Option Int :=
  match w.getLast? with
  | some o => some o.rating
  | none => ls

theorem seenAfter_cons (o : Obs) (w : List Obs) (ls : Option Int) :
    seenAfter (o :: w) ls = seenAfter w (some o.rating) := by
  cases w with
  | nil => rfl
  | cons x xs =>
    unfold seenAfter
    rw [List.getLast?_cons_cons]
    cases h : (x :: xs).getLast? with
    | none => simp at h
    | some y => rfl

theorem seenAfter_none (w : List Obs) :
    seenAfter w none = w.getLast?.map Obs.rating := by
  cases h : w.getLast? <;> simp [seenAfter, h]

theorem advanceRun_eq (d : String) (t : List Obs) (ls : Option Int) :
    advanceRun d t ls =
      ((t.takeWhile (fun o => strLe o.date d)).length,
       seenAfter (t.takeWhile (fun o => strLe o.date d)) ls) := by
  induction t generalizing ls with
  | nil => rfl
  | cons o rest ih =>
    by_cases h : strLe o.date d
    · simp [advanceRun, h, ih, List.takeWhile_cons, seenAfter_cons]
    · simp only [Bool.not_eq_true] at h
      simp [advanceRun, h, List.takeWhile_cons, seenAfter]

theorem advance_zero (s : List Obs) (d : String) :
    advance s d 0 none = (cntD s d, lastD s d) := by
  simp [advance, advanceRun_eq, cntD, lastD, seenAfter_none]

theorem takeWhile_append_of_all {p : Obs → Bool} {w : List Obs}
    (hw : ∀ x ∈ w, p x = true) (t : List Obs) :
    (w ++ t).takeWhile p = w ++ t.takeWhile p := by
  induction w with
  | nil => simp
  | cons a w' ih =>
    have ha := hw a (List.mem_cons_self a w')
    simp only [List.cons_append, List.takeWhile_cons, ha, if_true]
    rw [ih (fun x hx => hw x (List.mem_cons_of_mem a hx))]

theorem drop_takeWhile_length {α : Type} (p : α → Bool) (s : List α) :
    s.drop (s.takeWhile p).length = s.dropWhile p := by
  induction s with
  | nil => rfl
  | cons a t ih =>
    by_cases h : p a <;>
      simp [List.takeWhile_cons, List.dropWhile_cons, h, ih]

theorem advance_step (s : List Obs) {d d' : String} (hdd' : d ≤ d') :
    advance s d' (cntD s d) (lastD s d) = (cntD s d', lastD s d') := by
  have hmono : ∀ x ∈ s.takeWhile (fun o : Obs => strLe o.date d),
      (fun o : Obs => strLe o.date d') x = true := by
    intro x hx
    have hx' : (fun o : Obs => strLe o.date d) x = true :=
      @List.mem_takeWhile_imp Obs (fun o : Obs => strLe o.date d) s x hx
    exact strLe_iff.mpr (le_trans (strLe_iff.mp hx') hdd')
  have htw : s.takeWhile (fun o : Obs => strLe o.date d') =
      s.takeWhile (fun o : Obs => strLe o.date d) ++
        (s.dropWhile (fun o : Obs => strLe o.date d)).takeWhile
          (fun o : Obs => strLe o.date d') := by
    conv_lhs => rw [← List.takeWhile_append_dropWhile (fun o : Obs => strLe o.date d) s]
    exact takeWhile_append_of_all hmono _
  unfold advance
  rw [show s.drop (cntD s d) = s.dropWhile (fun o : Obs => strLe o.date d) from
    drop_takeWhile_length _ s]
  rw [advanceRun_eq]
  dsimp only
  unfold cntD lastD
  rw [htw, Prod.mk.injEq]
  refine ⟨by simp, ?_⟩
  rw [List.getLast?_append]
  cases hlast : ((s.dropWhile (fun o : Obs => strLe o.date d)).takeWhile
      (fun o : Obs => strLe o.date d')).getLast? with
  | none => simp [seenAfter, hlast]
  | some o => simp [seenAfter, hlast]

theorem processPlayers_spec (lookup : String → List Obs) (d : String)
    (us : List String) (ptrs : String → Nat) (seen : String → Option Int)
    (hinv : ∀ u ∈ us,
      advance (lookup u) d (ptrs u) (seen u) = (cntD (lookup u) d, lastD (lookup u) d)) :
    processPlayers lookup d us ptrs seen =
      (us.map (fun u => (u, lastD (lookup u) d)),
       fun v => if v ∈ us then cntD (lookup v) d else ptrs v,
       fun v => if v ∈ us then lastD (lookup v) d else seen v) := by
  induction us generalizing ptrs seen with
  | nil =>
    simp only [processPlayers, List.map_nil]
    refine Prod.ext rfl (Prod.ext ?_ ?_) <;> funext v <;> simp
  | cons u us' ih =>
    have hu := hinv u (List.mem_cons_self u us')
    have step : processPlayers lookup d (u :: us') ptrs seen =
        ((u, lastD (lookup u) d) ::
          (processPlayers lookup d us'
            (Function.update ptrs u (cntD (lookup u) d))
            (Function.update seen u (lastD (lookup u) d))).1,
         (processPlayers lookup d us'
            (Function.update ptrs u (cntD (lookup u) d))
            (Function.update seen u (lastD (lookup u) d))).2) := by
      simp only [processPlayers, hu]
    rw [step, ih]
    · refine Prod.ext ?_ (Prod.ext ?_ ?_)
      · simp
      · funext v
        by_cases hv : v ∈ us'
        · simp [hv, List.mem_cons]
        · by_cases hvu : v = u
          · subst hvu
            simp [hv, Function.update]
          · simp [hv, hvu, Function.update, List.mem_cons]
      · funext v
        by_cases hv : v ∈ us'
        · simp [hv, List.mem_cons]
        · by_cases hvu : v = u
          · subst hvu
            simp [hv, Function.update]
          · simp [hv, hvu, Function.update, List.mem_cons]
    · intro v hv
      by_cases hvu : v = u
      · subst hvu
        simp only [Function.update_same]
        exact advance_step (lookup v) (le_refl d)
      · rw [Function.update_noteq hvu, Function.update_noteq hvu]
        exact hinv v (List.mem_cons_of_mem u hv)

theorem mergeRows_spec (players : List String) (lookup : String → List Obs) :
    ∀ (ds : List String) (ptrs : String → Nat) (seen : String → Option Int),
      List.Pairwise (· ≤ ·) ds →
      (∀ u ∈ players, ∀ d ∈ ds,
        advance (lookup u) d (ptrs u) (seen u) = (cntD (lookup u) d, lastD (lookup u) d)) →
      mergeRows players lookup ds ptrs seen =
        ds.map (fun d => ⟨d, players.map (fun u => (u, lastD (lookup u) d))⟩) := by
  intro ds
  induction ds with
  | nil => intro ptrs seen _ _; rfl
  | cons d ds' ih =>
    intro ptrs seen hds hinv
    have hrow := processPlayers_spec lookup d players ptrs seen
      (fun u hu => hinv u hu d (List.mem_cons_self d ds'))
    obtain ⟨hd_le, hds'⟩ := List.pairwise_cons.mp hds
    simp only [mergeRows, hrow, List.map_cons]
    congr 1
    apply ih _ _ hds'
    intro u hu d' hd'
    simp only [hu, if_pos]
    exact advance_step (lookup u) (hd_le d' hd')

theorem insertDate_perm (d : String) (l : List String) :
    (insertDate d l).Perm (d :: l) := by
  induction l with
  | nil => exact List.Perm.refl _
  | cons e es ih =>
    by_cases h : strLe d e
    · simp [insertDate, h]
    · simp only [Bool.not_eq_true] at h
      simp only [insertDate, h, Bool.false_eq_true, if_false]
      exact (ih.cons e).trans (List.Perm.swap d e es)

theorem sortDates_perm (l : List String) : (sortDates l).Perm l := by
  induction l with
  | nil => exact List.Perm.refl _
  | cons x xs ih =>
    exact (insertDate_perm x (sortDates xs)).trans (ih.cons x)

theorem insertDate_sorted {l : List String} (hl : List.Pairwise (· ≤ ·) l) (d : String) :
    List.Pairwise (· ≤ ·) (insertDate d l) := by
  induction l with
  | nil => simp [insertDate]
  | cons e es ih =>
    obtain ⟨he, hes⟩ := List.pairwise_cons.mp hl
    by_cases h : strLe d e
    · have hde : d ≤ e := strLe_iff.mp h
      simp only [insertDate, h, if_true]
      refine List.pairwise_cons.mpr ⟨?_, hl⟩
      intro x hx
      rcases List.mem_cons.mp hx with rfl | hx
      · exact hde
      · exact le_trans hde (he x hx)
    · have hed : e ≤ d := le_of_lt (strLe_false_iff.mp (Bool.not_eq_true _ ▸ h))
      simp only [insertDate, h, if_false]
      refine List.pairwise_cons.mpr ⟨?_, ih hes⟩
      intro x hx
      have hx' := (insertDate_perm d es).mem_iff.mp hx
      rcases List.mem_cons.mp hx' with rfl | hx'
      · exact hed
      · exact he x hx'

theorem sortDates_sorted (l : List String) : List.Pairwise (· ≤ ·) (sortDates l) := by
  induction l with
  | nil => simp [sortDates]
  | cons x xs ih => exact insertDate_sorted ih x

theorem sortedDates_sorted (series : List (String × List Obs)) :
    List.Pairwise (· ≤ ·) (sortedDates series) :=
  sortDates_sorted _

theorem sortedDates_nodup (series : List (String × List Obs)) :
    (sortedDates series).Nodup :=
  (sortDates_perm _).nodup_iff.mpr (List.nodup_dedup _)

theorem sortedDates_strict (series : List (String × List Obs)) :
    List.Pairwise (· < ·) (sortedDates series) := by
  have h := (sortedDates_sorted series).and (sortedDates_nodup series)
  exact h.imp (fun hab => lt_of_le_of_ne hab.1 hab.2)

theorem mem_sortedDates {series : List (String × List Obs)} {d : String} :
    d ∈ sortedDates series ↔ ∃ pr ∈ series, ∃ o ∈ pr.2, o.date = d := by
  unfold sortedDates
  rw [(sortDates_perm _).mem_iff, List.mem_dedup, List.mem_map]
  constructor
  · rintro ⟨o, ho, rfl⟩
    obtain ⟨pr, hpr, ho⟩ := List.mem_flatMap.mp ho
    exact ⟨pr, hpr, o, ho, rfl⟩
  · rintro ⟨pr, hpr, o, ho, rfl⟩
    exact ⟨o, List.mem_flatMap.mpr ⟨pr, hpr, ho⟩, rfl⟩

/-- Closed form of `mergeSeries`: one row per sorted union date, whose
value for each roster player is the `lastSeen` state after consuming that
player's observations up to the row date. -/
theorem mergeSeries_eq (players : List String) (series : List (String × List Obs)) :
    mergeSeries players series =
      (sortedDates series).map (fun d =>
        ⟨d, players.map (fun u => (u, lastD (lookupSeries series u) d))⟩) := by
  apply mergeRows_spec
  · exact sortedDates_sorted series
  · intro u _ d _
    exact advance_zero _ d

/-- A per-player series sorted strictly ascending by date (the input
invariant of `mergeSeries`). -/
def SeriesSorted (s : List Obs) : Prop :=
  List.Pairwise (fun a b => a.date < b.date) s

instance (s : List Obs) : Decidable (SeriesSorted s) :=
  decidable_of_iff (List.Pairwise (fun a b => strLt a.date b.date = true) s)
    (List.Pairwise.iff (fun (a b : Obs) => @strLt_iff a.date b.date))

/-- The specification's "most recent observation with date ≤ d": for a
series sorted strictly ascending by date this is the last observation whose
date is at most `d`, and its absence (`none`) means the player has no
observation on or before `d`. -/
def mostRecentRating (s : List Obs) (d : String) : Option Int :=
  ((s.filter (fun o => strLe o.date d)).getLast?).map Obs.rating

theorem takeWhile_eq_filter_of_sorted {s : List Obs} (hs : SeriesSorted s) (d : String) :
    s.takeWhile (fun o => strLe o.date d) = s.filter (fun o => strLe o.date d) := by
  induction s with
  | nil => rfl
  | cons o rest ih =>
    obtain ⟨ho, hrest⟩ := List.pairwise_cons.mp hs
    by_cases h : strLe o.date d
    · simp [List.takeWhile_cons, List.filter_cons, h, ih hrest]
    · simp only [Bool.not_eq_true] at h
      have hfil : rest.filter (fun o => strLe o.date d) = [] := by
        rw [List.filter_eq_nil_iff]
        intro x hx
        have : d < x.date := lt_trans (strLe_false_iff.mp h) (ho x hx)
        simp [strLe_false_iff.mpr this]
      simp [List.takeWhile_cons, List.filter_cons, h, hfil]

theorem lastD_eq_mostRecent {s : List Obs} (hs : SeriesSorted s) (d : String) :
    lastD s d = mostRecentRating s d := by
  rw [lastD, mostRecentRating, takeWhile_eq_filter_of_sorted hs]

theorem lookupSeries_sorted {series : List (String × List Obs)}
    (hsorted : ∀ pr ∈ series, SeriesSorted pr.2) (u : String) :
    SeriesSorted (lookupSeries series u) := by
  unfold lookupSeries
  cases h : series.find? (fun p => p.1 == u) with
  | none => exact List.Pairwise.nil
  | some pr => exact hsorted pr (List.mem_of_find?_eq_some h)

theorem lookupSeries_obs_mem {series : List (String × List Obs)} {u : String} {o : Obs}
    (ho : o ∈ lookupSeries series u) : ∃ pr ∈ series, o ∈ pr.2 := by
  unfold lookupSeries at ho
  cases h : series.find? (fun p => p.1 == u) with
  | none => rw [h] at ho; simp at ho
  | some pr =>
    rw [h] at ho
    exact ⟨pr, List.mem_of_find?_eq_some h, ho⟩

theorem getField_map_players {players : List String} (f : String → Option Int) {u : String}
    (hu : u ∈ players) :
    getField (players.map (fun v => (v, f v))) u = some (f u) := by
  induction players with
  | nil => simp at hu
  | cons v vs ih =>
    by_cases hv : v = u
    · subst hv
      simp [getField, List.find?_cons]
    · have hu' : u ∈ vs := by
        rcases List.mem_cons.mp hu with rfl | h
        · exact absurd rfl hv
        · exact h
      have hbeq : (v == u) = false := by
        simp [hv]
      unfold getField at ih ⊢
      simp only [List.map_cons, List.find?_cons, hbeq]
      exact ih hu'

/-- C2: for every input mapping of player id to series, the date fields of
the table returned by `mergeSeries` are strictly ascending (hence no
duplicates) and a date occurs among them exactly when it occurs in some
input series (the full union, no missing dates). -/
theorem mergeSeries_dates_complete (players : List String)
    (series : List (String × List Obs)) :
    List.Pairwise (· < ·) ((mergeSeries players series).map MergedRow.date) ∧
    (∀ d, d ∈ (mergeSeries players series).map MergedRow.date ↔
      ∃ pr ∈ series, ∃ o ∈ pr.2, o.date = d) := by
  have hdates : (mergeSeries players series).map MergedRow.date = sortedDates series := by
    rw [mergeSeries_eq, List.map_map]
    have hcomp : (MergedRow.date ∘ fun d =>
        (⟨d, players.map (fun u => (u, lastD (lookupSeries series u) d))⟩ : MergedRow)) =
        fun d => d := rfl
    rw [hcomp]
    exact List.map_id' _
  rw [hdates]
  exact ⟨sortedDates_strict series, fun d => mem_sortedDates⟩

/-- C1: for every roster and every mapping of player id to series with each
present series sorted strictly ascending by date, every row of
`mergeSeries` assigns to every roster player the rating of that player's
most recent observation on or before the row's date (`none` when there is
no such observation); and between two consecutive rows where the player has
no observation on the later date, the player's value is unchanged. -/
theorem mergeSeries_forward_fill (players : List String)
    (series : List (String × List Obs))
    (hsorted : ∀ pr ∈ series, SeriesSorted pr.2) :
    (∀ r ∈ mergeSeries players series, ∀ u ∈ players,
      getField r.values u = some (mostRecentRating (lookupSeries series u) r.date)) ∧
    (∀ i, ∀ hi : i + 1 < (mergeSeries players series).length, ∀ u ∈ players,
      (∀ o ∈ lookupSeries series u,
        o.date ≠ ((mergeSeries players series).get ⟨i + 1, hi⟩).date) →
      getField (((mergeSeries players series).get ⟨i + 1, hi⟩).values) u =
        getField (((mergeSeries players series).get ⟨i, Nat.lt_of_succ_lt hi⟩).values) u) := by
  rw [mergeSeries_eq]
  constructor
  · intro r hr u hu
    obtain ⟨d, hd, rfl⟩ := List.mem_map.mp hr
    show getField (players.map (fun v => (v, lastD (lookupSeries series v) d))) u = _
    rw [getField_map_players _ hu]
    exact congrArg some (lastD_eq_mostRecent (lookupSeries_sorted hsorted u) d)
  · intro i hi u hu hno
    have hi2 : i + 1 < (sortedDates series).length := by
      have h := hi
      rw [List.length_map] at h
      exact h
    have hi1 : i < (sortedDates series).length := Nat.lt_of_succ_lt hi2
    simp only [List.get_eq_getElem, List.getElem_map] at hno ⊢
    rw [getField_map_players _ hu, getField_map_players _ hu]
    have hs' : SeriesSorted (lookupSeries series u) := lookupSeries_sorted hsorted u
    congr 1
    rw [lastD_eq_mostRecent hs', lastD_eq_mostRecent hs']
    unfold mostRecentRating
    have hstrict := sortedDates_strict series
    have hgetlt := List.pairwise_iff_getElem.mp hstrict
    have hle : (sortedDates series)[i] ≤ (sortedDates series)[i + 1] :=
      le_of_lt (hgetlt i (i + 1) hi1 hi2 (Nat.lt_succ_self i))
    have hfil : (lookupSeries series u).filter (fun o => strLe o.date (sortedDates series)[i + 1]) =
        (lookupSeries series u).filter (fun o => strLe o.date (sortedDates series)[i]) := by
      apply List.filter_congr
      intro o ho
      by_cases h1 : strLe o.date (sortedDates series)[i] = true
      · rw [h1, strLe_iff.mpr (le_trans (strLe_iff.mp h1) hle)]
      · have h1f : strLe o.date (sortedDates series)[i] = false :=
          Bool.not_eq_true _ ▸ h1
        by_cases h2 : strLe o.date (sortedDates series)[i + 1] = true
        · exfalso
          have hlt : (sortedDates series)[i] < o.date := strLe_false_iff.mp h1f
          have hmem : o.date ∈ sortedDates series := by
            obtain ⟨pr, hpr, ho2⟩ := lookupSeries_obs_mem ho
            exact mem_sortedDates.mpr ⟨pr, hpr, o, ho2, rfl⟩
          obtain ⟨j, hj, hjd⟩ := List.mem_iff_getElem.mp hmem
          have hij : i < j := by
            by_contra hc
            push_neg at hc
            rcases Nat.lt_or_ge j i with hji | hji
            · exact absurd (hjd ▸ hgetlt j i hj hi1 hji) (not_lt_of_le (le_of_lt hlt))
            · have : j = i := le_antisymm hc hji
              subst this
              exact absurd hjd (ne_of_lt hlt)
          have hj1 : j ≤ i + 1 := by
            by_contra hc
            push_neg at hc
            have : (sortedDates series)[i + 1] < o.date := hjd ▸ hgetlt (i + 1) j hi2 hj hc
            exact absurd (strLe_iff.mp h2) (not_le_of_lt this)
          have hj2 : j = i + 1 := le_antisymm hj1 hij
          subst hj2
          exact hno o ho hjd.symm
        · have h2f : strLe o.date (sortedDates series)[i + 1] = false :=
            Bool.not_eq_true _ ▸ h2
          rw [h1f, h2f]
    rw [hfil]

/-- Witness for C1 at the repository's own test scenario. -/
theorem mergeSeries_forward_fill_witness :
    getField [("alpha", some 1000), ("beta", some 900)] "beta" =
      some (mostRecentRating
        (lookupSeries
          [("alpha", [⟨"2025-01-01", (1000 : Int)⟩, ⟨"2025-01-03", 1010⟩]),
           ("beta", [⟨"2025-01-02", 900⟩])] "beta") "2025-01-02") :=
  (mergeSeries_forward_fill ["alpha", "beta"]
      [("alpha", [⟨"2025-01-01", (1000 : Int)⟩, ⟨"2025-01-03", 1010⟩]),
       ("beta", [⟨"2025-01-02", 900⟩])] (by decide)).1
    ⟨"2025-01-02", [("alpha", some 1000), ("beta", some 900)]⟩ (by decide) "beta" (by decide)

/-- A merged table sorted strictly ascending by date (the `MergedTable`
invariant). -/
def TableSorted (t : List MergedRow) : Prop :=
  List.Pairwise (fun a b : MergedRow => a.date < b.date) t

instance (t : List MergedRow) : Decidable (TableSorted t) :=
  decidable_of_iff (List.Pairwise (fun a b : MergedRow => strLt a.date b.date = true) t)
    (List.Pairwise.iff (fun (a b : MergedRow) => @strLt_iff a.date b.date))

theorem findIdx?_some_spec {α : Type} {p : α → Bool} {l : List α} {i : Nat}
    (h : l.findIdx? p = some i) :
    ∃ hi : i < l.length, p (l.get ⟨i, hi⟩) = true ∧
      ∀ j, ∀ hj : j < l.length, j < i → p (l.get ⟨j, hj⟩) = false := by
  obtain ⟨hi, hfi⟩ := List.findIdx?_eq_some_iff_findIdx_eq.mp h
  refine ⟨hi, ?_, ?_⟩
  · have hw : l.findIdx p < l.length := by rw [hfi]; exact hi
    have := @List.findIdx_getElem _ p l hw
    simp only [List.get_eq_getElem]
    rw [show l[i] = l[l.findIdx p] from by simp [hfi]]
    exact this
  · intro j hj hji
    have hjf : j < l.findIdx p := by rw [hfi]; exact hji
    simp only [List.get_eq_getElem]
    exact List.not_of_lt_findIdx hjf

theorem findIdx?_eq_some_of_first {α : Type} {p : α → Bool} {l : List α} {i : Nat}
    (hi : i < l.length) (hpi : p (l.get ⟨i, hi⟩) = true)
    (hprev : ∀ j, ∀ hj : j < l.length, j < i → p (l.get ⟨j, hj⟩) = false) :
    l.findIdx? p = some i := by
  refine List.findIdx?_eq_some_iff_findIdx_eq.mpr ⟨hi, (List.findIdx_eq hi).mpr ⟨?_, ?_⟩⟩
  · simpa using hpi
  · intro j hji
    have := hprev j (lt_trans hji hi) hji
    simpa using this

theorem drop_length_sub_one {α : Type} {l : List α} (h : l ≠ []) :
    l.drop (l.length - 1) = [l.getLast h] := by
  have hlen : 0 < l.length := List.length_pos.mpr h
  have h1 : l.length - 1 < l.length := by omega
  rw [List.drop_eq_getElem_cons h1, List.getLast_eq_getElem]
  have : l.length - 1 + 1 = l.length := by omega
  rw [this, List.drop_length]

theorem slice_key_all (chartData : List MergedRow) (timeframes : List TimeframeSpec)
    (now : JsDate) :
    sliceSeriesByTimeframe chartData "all" timeframes now = chartData := by
  unfold sliceSeriesByTimeframe
  simp

theorem slice_guard_false {timeframe : String} {chartData : List MergedRow}
    (hall : timeframe ≠ "all") (hne : chartData ≠ []) :
    (timeframe == "all" || chartData.length == 0) = false := by
  simp [hall, hne, List.length_eq_zero]

theorem slice_find_none {chartData : List MergedRow} {timeframe : String}
    {timeframes : List TimeframeSpec} (now : JsDate)
    (hfind : timeframes.find? (fun o => o.key == timeframe) = none) :
    sliceSeriesByTimeframe chartData timeframe timeframes now = chartData := by
  unfold sliceSeriesByTimeframe
  split
  · rfl
  · rw [hfind]

theorem slice_months_none {chartData : List MergedRow} {timeframe : String}
    {timeframes : List TimeframeSpec} {tf : TimeframeSpec} (now : JsDate)
    (hfind : timeframes.find? (fun o => o.key == timeframe) = some tf)
    (hm : tf.months = none) :
    sliceSeriesByTimeframe chartData timeframe timeframes now = chartData := by
  unfold sliceSeriesByTimeframe
  split
  · rfl
  · rw [hfind]
    simp only
    rw [hm]

theorem slice_months_zero {chartData : List MergedRow} {timeframe : String}
    {timeframes : List TimeframeSpec} {tf : TimeframeSpec} (now : JsDate)
    (hfind : timeframes.find? (fun o => o.key == timeframe) = some tf)
    (hm : tf.months = some 0) :
    sliceSeriesByTimeframe chartData timeframe timeframes now = chartData := by
  unfold sliceSeriesByTimeframe
  split
  · rfl
  · rw [hfind]
    simp only
    rw [hm]
    simp

theorem slice_cutoff_branch {chartData : List MergedRow} {timeframe : String}
    {timeframes : List TimeframeSpec} {tf : TimeframeSpec} {m : Int} (now : JsDate)
    (hall : timeframe ≠ "all") (hne : chartData ≠ [])
    (hfind : timeframes.find? (fun o => o.key == timeframe) = some tf)
    (hm : tf.months = some m) (hm0 : m ≠ 0) :
    sliceSeriesByTimeframe chartData timeframe timeframes now =
      (match chartData.findIdx? (fun row => strLe (cutoffKeyOf now m) row.date) with
      | none => chartData.drop (chartData.length - 1)
      | some startIndex =>
        if 0 < startIndex then
          match chartData.get? (startIndex - 1) with
          | some prev => { prev with date := cutoffKeyOf now m } :: chartData.drop startIndex
          | none => chartData.drop startIndex
        else chartData.drop startIndex) := by
  unfold sliceSeriesByTimeframe
  rw [slice_guard_false hall hne]
  simp only [Bool.false_eq_true, if_false]
  rw [hfind]
  simp only
  rw [hm]
  have hmb : (m == 0) = false := beq_eq_false_iff_ne.mpr hm0
  simp only [hmb, Bool.false_eq_true, if_false]

theorem slice_findIdx_none {chartData : List MergedRow} {timeframe : String}
    {timeframes : List TimeframeSpec} {tf : TimeframeSpec} {m : Int} (now : JsDate)
    (hall : timeframe ≠ "all") (hne : chartData ≠ [])
    (hfind : timeframes.find? (fun o => o.key == timeframe) = some tf)
    (hm : tf.months = some m) (hm0 : m ≠ 0)
    (hidx : chartData.findIdx? (fun row => strLe (cutoffKeyOf now m) row.date) = none) :
    sliceSeriesByTimeframe chartData timeframe timeframes now =
      chartData.drop (chartData.length - 1) := by
  rw [slice_cutoff_branch now hall hne hfind hm hm0, hidx]

theorem slice_findIdx_zero {chartData : List MergedRow} {timeframe : String}
    {timeframes : List TimeframeSpec} {tf : TimeframeSpec} {m : Int} (now : JsDate)
    (hall : timeframe ≠ "all") (hne : chartData ≠ [])
    (hfind : timeframes.find? (fun o => o.key == timeframe) = some tf)
    (hm : tf.months = some m) (hm0 : m ≠ 0)
    (hidx : chartData.findIdx? (fun row => strLe (cutoffKeyOf now m) row.date) = some 0) :
    sliceSeriesByTimeframe chartData timeframe timeframes now = chartData := by
  rw [slice_cutoff_branch now hall hne hfind hm hm0, hidx]
  simp

theorem slice_findIdx_pos {chartData : List MergedRow} {timeframe : String}
    {timeframes : List TimeframeSpec} {tf : TimeframeSpec} {m : Int} {i : Nat}
    {prev : MergedRow} (now : JsDate)
    (hall : timeframe ≠ "all") (hne : chartData ≠ [])
    (hfind : timeframes.find? (fun o => o.key == timeframe) = some tf)
    (hm : tf.months = some m) (hm0 : m ≠ 0)
    (hidx : chartData.findIdx? (fun row => strLe (cutoffKeyOf now m) row.date) = some i)
    (hi0 : 0 < i) (hprev : chartData.get? (i - 1) = some prev) :
    sliceSeriesByTimeframe chartData timeframe timeframes now =
      { prev with date := cutoffKeyOf now m } :: chartData.drop i := by
  have hprev2 : chartData[i - 1]? = some prev := by
    rw [← List.get?_eq_getElem?]
    exact hprev
  rw [slice_cutoff_branch now hall hne hfind hm hm0, hidx]
  simp [hi0, hprev2]

/-- C10: `sliceSeriesByTimeframe` returns its input unchanged whenever the
timeframe key is the literal string "all", without consulting the timeframe
list: even a list that maps "all" to a non-null months value causes no
trimming. -/
theorem slice_all_bypasses_list (chartData : List MergedRow)
    (timeframes : List TimeframeSpec) (now : JsDate) :
    sliceSeriesByTimeframe chartData "all" timeframes now = chartData := by
  unfold sliceSeriesByTimeframe
  simp

/-- C7: if the key resolves to a spec with null months, or the key is
absent from the timeframe list, or the table is empty, the slice returns
the input table unchanged; an unknown key is not an error. -/
theorem slice_identity_cases (chartData : List MergedRow) (timeframe : String)
    (timeframes : List TimeframeSpec) (now : JsDate)
    (h : (∃ tf, timeframes.find? (fun o => o.key == timeframe) = some tf ∧ tf.months = none) ∨
      timeframes.find? (fun o => o.key == timeframe) = none ∨ chartData = []) :
    sliceSeriesByTimeframe chartData timeframe timeframes now = chartData := by
  rcases h with ⟨tf, hfind, hm⟩ | hfind | hempty
  · exact slice_months_none now hfind hm
  · exact slice_find_none now hfind
  · subst hempty
    unfold sliceSeriesByTimeframe
    simp

/-- Witness for C7: an unknown timeframe key leaves the table unchanged. -/
theorem slice_identity_cases_witness :
    sliceSeriesByTimeframe [⟨"2025-01-01", [("alpha", some 1000)]⟩] "9m"
      [⟨"1m", some 1⟩, ⟨"all", none⟩] ⟨2025, 2, 15, 12, 0, 0⟩ =
      [⟨"2025-01-01", [("alpha", some 1000)]⟩] :=
  slice_identity_cases _ _ _ _ (Or.inr (Or.inl (by decide)))

/-- C3 (amended: additionally requires the key not to be the literal
string "all", which the code short-circuits before consulting the list):
for a non-empty sorted table and a key resolving to a positive months
value, slicing is the three-way case split on the first row whose date is
at least the cutoff key: no such row gives the single last row; a first
qualifying row at a positive index gives the suffix from that row with a
copy of the preceding row prepended under the cutoff date; a first
qualifying row at index 0 returns the table unchanged. -/
theorem slice_three_way (chartData : List MergedRow) (timeframe : String)
    (timeframes : List TimeframeSpec) (now : JsDate) (tf : TimeframeSpec) (m : Int)
    (hne : chartData ≠ []) (_hsorted : TableSorted chartData)
    (hall : timeframe ≠ "all")
    (hfind : timeframes.find? (fun o => o.key == timeframe) = some tf)
    (hm : tf.months = some m) (hmpos : 0 < m) :
    ((∀ r ∈ chartData, ¬ cutoffKeyOf now m ≤ r.date) →
      sliceSeriesByTimeframe chartData timeframe timeframes now = [chartData.getLast hne]) ∧
    (∀ i, ∀ hi : i < chartData.length,
      cutoffKeyOf now m ≤ (chartData.get ⟨i, hi⟩).date →
      (∀ j, ∀ hj : j < chartData.length, j < i →
        ¬ cutoffKeyOf now m ≤ (chartData.get ⟨j, hj⟩).date) →
      (0 < i →
        sliceSeriesByTimeframe chartData timeframe timeframes now =
          ⟨cutoffKeyOf now m,
            (chartData.get ⟨i - 1, Nat.lt_of_le_of_lt (Nat.sub_le i 1) hi⟩).values⟩ ::
            chartData.drop i) ∧
      (i = 0 →
        sliceSeriesByTimeframe chartData timeframe timeframes now = chartData)) := by
  have hm0 : m ≠ 0 := ne_of_gt hmpos
  constructor
  · intro hno
    have hidx : chartData.findIdx? (fun row => strLe (cutoffKeyOf now m) row.date) = none := by
      rw [List.findIdx?_eq_none_iff]
      intro x hx
      exact strLe_false_iff.mpr (not_le.mp (hno x hx))
    rw [slice_findIdx_none now hall hne hfind hm hm0 hidx]
    exact drop_length_sub_one hne
  · intro i hi hqual hfirst
    have hidx : chartData.findIdx? (fun row => strLe (cutoffKeyOf now m) row.date) = some i := by
      apply findIdx?_eq_some_of_first hi
      · exact strLe_iff.mpr hqual
      · intro j hj hji
        exact strLe_false_iff.mpr (not_le.mp (hfirst j hj hji))
    constructor
    · intro hi0
      have hprevlt : i - 1 < chartData.length := Nat.lt_of_le_of_lt (Nat.sub_le i 1) hi
      have hprev : chartData.get? (i - 1) =
          some (chartData.get ⟨i - 1, hprevlt⟩) := by
        rw [List.get?_eq_some]
        exact ⟨hprevlt, rfl⟩
      exact slice_findIdx_pos now hall hne hfind hm hm0 hidx hi0 hprev
    · intro hi0
      subst hi0
      exact slice_findIdx_zero now hall hne hfind hm hm0 hidx

/-- Counterexample to C3 as stated: with the key literally "all" and a
timeframe list mapping "all" to one month, the table (all of whose rows
are older than the cutoff) is returned whole instead of being reduced to
its single most recent row as the claim's case split demands. -/
theorem slice_three_way_cx :
    (([⟨"2020-01-01", []⟩, ⟨"2020-01-02", []⟩] : List MergedRow) ≠ []) ∧
    TableSorted [⟨"2020-01-01", []⟩, ⟨"2020-01-02", []⟩] ∧
    (([⟨"all", some 1⟩] : List TimeframeSpec).find? (fun o => o.key == "all") =
      some ⟨"all", some 1⟩) ∧
    (([⟨"2020-01-01", []⟩, ⟨"2020-01-02", []⟩] : List MergedRow).findIdx?
      (fun row => strLe (cutoffKeyOf ⟨2025, 2, 15, 12, 0, 0⟩ 1) row.date) = none) ∧
    sliceSeriesByTimeframe [⟨"2020-01-01", []⟩, ⟨"2020-01-02", []⟩] "all"
        [⟨"all", some 1⟩] ⟨2025, 2, 15, 12, 0, 0⟩ ≠
      [⟨"2020-01-02", []⟩] := by decide

/-- Witness for C3 at the repository's own test scenario: the first
qualifying row has index 2, so the slice is the suffix from it with a
boundary copy of row 1 prepended at the cutoff date. -/
theorem slice_three_way_witness :
    sliceSeriesByTimeframe
      [⟨"2025-01-01", [("alpha", some 1000), ("beta", some 900)]⟩,
       ⟨"2025-02-01", [("alpha", some 1010), ("beta", some 920)]⟩,
       ⟨"2025-03-01", [("alpha", some 1020), ("beta", some 940)]⟩]
      "1m" [⟨"1m", some 1⟩, ⟨"all", none⟩] ⟨2025, 2, 15, 12, 0, 0⟩ =
      ⟨cutoffKeyOf ⟨2025, 2, 15, 12, 0, 0⟩ 1,
        (([⟨"2025-01-01", [("alpha", some 1000), ("beta", some 900)]⟩,
           ⟨"2025-02-01", [("alpha", some 1010), ("beta", some 920)]⟩,
           ⟨"2025-03-01", [("alpha", some 1020), ("beta", some 940)]⟩] :
          List MergedRow).get ⟨1, by decide⟩).values⟩ ::
        ([⟨"2025-01-01", [("alpha", some 1000), ("beta", some 900)]⟩,
          ⟨"2025-02-01", [("alpha", some 1010), ("beta", some 920)]⟩,
          ⟨"2025-03-01", [("alpha", some 1020), ("beta", some 940)]⟩] :
          List MergedRow).drop 2 := by
  have h := (slice_three_way
    [⟨"2025-01-01", [("alpha", some 1000), ("beta", some 900)]⟩,
     ⟨"2025-02-01", [("alpha", some 1010), ("beta", some 920)]⟩,
     ⟨"2025-03-01", [("alpha", some 1020), ("beta", some 940)]⟩]
    "1m" [⟨"1m", some 1⟩, ⟨"all", none⟩] ⟨2025, 2, 15, 12, 0, 0⟩
    ⟨"1m", some 1⟩ 1 (by decide) (by decide) (by decide) (by decide) rfl
    (by decide)).2 2 (by decide)
  have hqual : cutoffKeyOf ⟨2025, 2, 15, 12, 0, 0⟩ 1 ≤
      (([⟨"2025-01-01", [("alpha", some 1000), ("beta", some 900)]⟩,
         ⟨"2025-02-01", [("alpha", some 1010), ("beta", some 920)]⟩,
         ⟨"2025-03-01", [("alpha", some 1020), ("beta", some 940)]⟩] :
        List MergedRow).get ⟨2, by decide⟩).date := strLe_iff.mp (by decide)
  have hfirst : ∀ j, ∀ hj : j <
      ([⟨"2025-01-01", [("alpha", some 1000), ("beta", some 900)]⟩,
        ⟨"2025-02-01", [("alpha", some 1010), ("beta", some 920)]⟩,
        ⟨"2025-03-01", [("alpha", some 1020), ("beta", some 940)]⟩] :
       List MergedRow).length, j < 2 →
      ¬ cutoffKeyOf ⟨2025, 2, 15, 12, 0, 0⟩ 1 ≤
        (([⟨"2025-01-01", [("alpha", some 1000), ("beta", some 900)]⟩,
           ⟨"2025-02-01", [("alpha", some 1010), ("beta", some 920)]⟩,
           ⟨"2025-03-01", [("alpha", some 1020), ("beta", some 940)]⟩] :
          List MergedRow).get ⟨j, hj⟩).date := by
    intro j hj hj2 hcon
    have hb := strLe_iff.mpr hcon
    cases j with
    | zero =>
      have hb2 : strLe (cutoffKeyOf ⟨2025, 2, 15, 12, 0, 0⟩ 1) "2025-01-01" = true := hb
      exact absurd hb2 (by decide)
    | succ j1 =>
      cases j1 with
      | zero =>
        have hb2 : strLe (cutoffKeyOf ⟨2025, 2, 15, 12, 0, 0⟩ 1) "2025-02-01" = true := hb
        exact absurd hb2 (by decide)
      | succ j2 => omega
  exact (h hqual hfirst).1 (by decide)

theorem slice_empty_input (timeframe : String) (timeframes : List TimeframeSpec)
    (now : JsDate) :
    sliceSeriesByTimeframe [] timeframe timeframes now = [] := by
  unfold sliceSeriesByTimeframe
  simp

theorem date_le_of_mem_drop {chartData : List MergedRow} {i : Nat}
    (hsorted : TableSorted chartData) (hi : i < chartData.length) :
    ∀ r ∈ chartData.drop i, (chartData.get ⟨i, hi⟩).date ≤ r.date := by
  intro r hr
  obtain ⟨k, hk, hkr⟩ := List.mem_drop_iff_getElem.mp hr
  have hget := List.pairwise_iff_getElem.mp hsorted
  rcases Nat.eq_zero_or_pos k with hk0 | hk0
  · subst hk0
    simp only [Nat.add_zero] at hkr
    simp only [List.get_eq_getElem]
    rw [hkr]
  · have hlt : (chartData.get ⟨i, hi⟩).date < r.date := by
      simp only [List.get_eq_getElem]
      rw [← hkr]
      exact hget i (i + k) hi (by omega) (by omega)
    exact le_of_lt hlt

/-- C5 (amended: the result is always sorted non-strictly; it is strictly
sorted with no duplicate dates provided the cutoff key, when one is
computed, does not equal the date of any row after the first — if the
cutoff coincides with the date of a qualifying row at a positive index,
the synthesized boundary row duplicates that date). -/
theorem slice_sorted (chartData : List MergedRow) (timeframe : String)
    (timeframes : List TimeframeSpec) (now : JsDate)
    (hsorted : TableSorted chartData) :
    List.Pairwise (fun a b : MergedRow => a.date ≤ b.date)
      (sliceSeriesByTimeframe chartData timeframe timeframes now) ∧
    ((∀ tf m, timeframes.find? (fun o => o.key == timeframe) = some tf →
        tf.months = some m → timeframe ≠ "all" →
        cutoffKeyOf now m ∉ (chartData.drop 1).map MergedRow.date) →
      TableSorted (sliceSeriesByTimeframe chartData timeframe timeframes now)) := by
  have hID2 : sliceSeriesByTimeframe chartData timeframe timeframes now = chartData →
      List.Pairwise (fun a b : MergedRow => a.date ≤ b.date)
        (sliceSeriesByTimeframe chartData timeframe timeframes now) := by
    intro heq
    rw [heq]
    exact hsorted.imp (fun h => le_of_lt h)
  have hID3 : sliceSeriesByTimeframe chartData timeframe timeframes now = chartData →
      TableSorted (sliceSeriesByTimeframe chartData timeframe timeframes now) := by
    intro heq
    rw [heq]
    exact hsorted
  by_cases hall : timeframe = "all"
  · subst hall
    have h := slice_key_all chartData timeframes now
    exact ⟨hID2 h, fun _ => hID3 h⟩
  by_cases hne : chartData = []
  · subst hne
    rw [slice_empty_input]
    exact ⟨List.Pairwise.nil, fun _ => List.Pairwise.nil⟩
  cases hfind : timeframes.find? (fun o => o.key == timeframe) with
  | none =>
    have h := @slice_find_none chartData timeframe timeframes now hfind
    exact ⟨hID2 h, fun _ => hID3 h⟩
  | some tf =>
    cases hm : tf.months with
    | none =>
      have h := @slice_months_none chartData timeframe timeframes tf now hfind hm
      exact ⟨hID2 h, fun _ => hID3 h⟩
    | some m =>
      by_cases hm0 : m = 0
      · subst hm0
        have h := @slice_months_zero chartData timeframe timeframes tf now hfind hm
        exact ⟨hID2 h, fun _ => hID3 h⟩
      · cases hidx : chartData.findIdx? (fun row => strLe (cutoffKeyOf now m) row.date) with
        | none =>
          rw [slice_findIdx_none now hall hne hfind hm hm0 hidx]
          have hsub := List.Pairwise.sublist
            (List.drop_sublist (chartData.length - 1) chartData) hsorted
          exact ⟨hsub.imp (fun h => le_of_lt h), fun _ => hsub⟩
        | some i =>
          rcases Nat.eq_zero_or_pos i with hi0 | hi0
          · subst hi0
            have h := slice_findIdx_zero now hall hne hfind hm hm0 hidx
            exact ⟨hID2 h, fun _ => hID3 h⟩
          · obtain ⟨hi, hpi, hbefore⟩ := findIdx?_some_spec hidx
            have hprevlt : i - 1 < chartData.length := Nat.lt_of_le_of_lt (Nat.sub_le i 1) hi
            have hprev : chartData.get? (i - 1) =
                some (chartData.get ⟨i - 1, hprevlt⟩) := by
              rw [List.get?_eq_some]
              exact ⟨hprevlt, rfl⟩
            rw [slice_findIdx_pos now hall hne hfind hm hm0 hidx hi0 hprev]
            have hck_le : cutoffKeyOf now m ≤ (chartData.get ⟨i, hi⟩).date :=
              strLe_iff.mp hpi
            have hdropmem := date_le_of_mem_drop hsorted hi
            have hdropsorted := List.Pairwise.sublist (List.drop_sublist i chartData) hsorted
            constructor
            · refine List.pairwise_cons.mpr ⟨?_, hdropsorted.imp (fun h => le_of_lt h)⟩
              intro r hr
              exact le_trans hck_le (hdropmem r hr)
            · intro hcl
              have hnotin := hcl tf m rfl hm hall
              have hmem : (chartData.get ⟨i, hi⟩).date ∈
                  (chartData.drop 1).map MergedRow.date := by
                apply List.mem_map_of_mem
                rw [List.mem_drop_iff_getElem]
                refine ⟨i - 1, by omega, ?_⟩
                have : 1 + (i - 1) = i := by omega
                simp only [this, List.get_eq_getElem]
              have hck_lt : cutoffKeyOf now m < (chartData.get ⟨i, hi⟩).date := by
                rcases lt_or_eq_of_le hck_le with h | h
                · exact h
                · exact absurd (h ▸ hmem) hnotin
              refine List.pairwise_cons.mpr ⟨?_, hdropsorted⟩
              intro r hr
              exact lt_of_lt_of_le hck_lt (hdropmem r hr)

/-- Witness for C5: a slice that synthesizes a boundary row is strictly
sorted when the cutoff differs from every later row date. -/
theorem slice_sorted_witness :
    TableSorted (sliceSeriesByTimeframe
      [⟨"2025-01-01", [("alpha", some 1000), ("beta", some 900)]⟩,
       ⟨"2025-02-01", [("alpha", some 1010), ("beta", some 920)]⟩,
       ⟨"2025-03-01", [("alpha", some 1020), ("beta", some 940)]⟩]
      "1m" [⟨"1m", some 1⟩, ⟨"all", none⟩] ⟨2025, 2, 15, 12, 0, 0⟩) := by
  apply (slice_sorted
    [⟨"2025-01-01", [("alpha", some 1000), ("beta", some 900)]⟩,
     ⟨"2025-02-01", [("alpha", some 1010), ("beta", some 920)]⟩,
     ⟨"2025-03-01", [("alpha", some 1020), ("beta", some 940)]⟩]
    "1m" [⟨"1m", some 1⟩, ⟨"all", none⟩] ⟨2025, 2, 15, 12, 0, 0⟩ (by decide)).2
  intro tf m hfind hm hall2
  have h1 : (⟨"1m", some (1 : Int)⟩ : TimeframeSpec) = tf :=
    Option.some.inj ((show ([⟨"1m", some 1⟩, ⟨"all", none⟩] :
      List TimeframeSpec).find? (fun o => o.key == "1m") = some ⟨"1m", some 1⟩ by decide).symm.trans
      hfind)
  subst h1
  have h2 : (1 : Int) = m := Option.some.inj hm
  subst h2
  decide

/-- C6: the cutoff is the `now` timestamp truncated to the start of its
calendar day (UTC) stepped back by the spec's months
(here 2025-03-15T12:00Z minus one month gives the key "2025-02-15"), and
slicing the three-row table to one month as of that instant returns the
suffix from 2025-03-01 with the boundary row synthesized at 2025-02-15
carrying the 2025-02-01 values. -/
theorem slice_cutoff_scenario :
    cutoffKeyOf ⟨2025, 2, 15, 12, 0, 0⟩ 1 = "2025-02-15" ∧
    sliceSeriesByTimeframe
      [⟨"2025-01-01", [("alpha", some 1000), ("beta", some 900)]⟩,
       ⟨"2025-02-01", [("alpha", some 1010), ("beta", some 920)]⟩,
       ⟨"2025-03-01", [("alpha", some 1020), ("beta", some 940)]⟩]
      "1m" [⟨"1m", some 1⟩, ⟨"all", none⟩] ⟨2025, 2, 15, 12, 0, 0⟩ =
      [⟨"2025-02-15", [("alpha", some 1010), ("beta", some 920)]⟩,
       ⟨"2025-03-01", [("alpha", some 1020), ("beta", some 940)]⟩] := by decide

/-- Counterexample to C5 as stated: when the cutoff key equals the date of
a qualifying row at a positive index, the synthesized boundary row
duplicates that date, so the sliced table is not strictly ascending. -/
theorem slice_sorted_cx :
    TableSorted [⟨"2025-01-01", [("alpha", some 1000)]⟩,
                 ⟨"2025-02-15", [("alpha", some 1010)]⟩] ∧
    sliceSeriesByTimeframe
        [⟨"2025-01-01", [("alpha", some 1000)]⟩,
         ⟨"2025-02-15", [("alpha", some 1010)]⟩]
        "1m" [⟨"1m", some 1⟩] ⟨2025, 2, 15, 12, 0, 0⟩ =
      [⟨"2025-02-15", [("alpha", some 1000)]⟩,
       ⟨"2025-02-15", [("alpha", some 1010)]⟩] ∧
    ¬ TableSorted (sliceSeriesByTimeframe
        [⟨"2025-01-01", [("alpha", some 1000)]⟩,
         ⟨"2025-02-15", [("alpha", some 1010)]⟩]
        "1m" [⟨"1m", some 1⟩] ⟨2025, 2, 15, 12, 0, 0⟩) := by decide

theorem le_getLast_of_mem {l : List String} (hsort : List.Pairwise (· < ·) l) {d : String}
    (hd : d ∈ l) (hne : l ≠ []) : d ≤ l.getLast hne := by
  obtain ⟨j, hj, hjd⟩ := List.mem_iff_getElem.mp hd
  rw [List.getLast_eq_getElem]
  have hget := List.pairwise_iff_getElem.mp hsort
  rcases Nat.lt_or_ge j (l.length - 1) with h | h
  · exact le_of_lt (hjd ▸ hget j (l.length - 1) hj (by omega) h)
  · have hj1 : j = l.length - 1 := by omega
    subst hj1
    exact le_of_eq hjd.symm

/-- C4 (amended: additionally requires the key not to be the literal
"all", the cutoff to be no earlier than the table's first row date, and
the cutoff to differ from every row date after the first): slicing a
non-empty merged table to a positive months window yields at least one
row, and the first row's values are the forward-filled values as of the
cutoff date — for each roster player, the most recent rating at or before
the cutoff, else null. -/
theorem slice_non_loss (players : List String) (series : List (String × List Obs))
    (timeframe : String) (timeframes : List TimeframeSpec) (now : JsDate)
    (tf : TimeframeSpec) (m : Int)
    (hsorted : ∀ pr ∈ series, SeriesSorted pr.2)
    (hne : mergeSeries players series ≠ [])
    (hall : timeframe ≠ "all")
    (hfind : timeframes.find? (fun o => o.key == timeframe) = some tf)
    (hm : tf.months = some m) (hmpos : 0 < m)
    (hfirstrow : ∀ r rest2, mergeSeries players series = r :: rest2 →
      r.date ≤ cutoffKeyOf now m)
    (hnodup : ∀ i, ∀ hi : i < (mergeSeries players series).length, 0 < i →
      ((mergeSeries players series).get ⟨i, hi⟩).date ≠ cutoffKeyOf now m) :
    ∃ r rest, sliceSeriesByTimeframe (mergeSeries players series) timeframe timeframes now =
        r :: rest ∧
      ∀ u ∈ players, getField r.values u =
        some (mostRecentRating (lookupSeries series u) (cutoffKeyOf now m)) := by
  have hm0 : m ≠ 0 := ne_of_gt hmpos
  have hrows := mergeSeries_eq players series
  have hlen : (mergeSeries players series).length = (sortedDates series).length := by
    rw [hrows, List.length_map]
  have hdsne : sortedDates series ≠ [] := by
    intro hnil
    apply hne
    rw [hrows, hnil]
    rfl
  have hidxmap : (mergeSeries players series).findIdx?
      (fun row => strLe (cutoffKeyOf now m) row.date) =
      (sortedDates series).findIdx? (fun d => strLe (cutoffKeyOf now m) d) := by
    rw [hrows, List.findIdx?_map]
    rfl
  have hstrict := sortedDates_strict series
  have hdsget := List.pairwise_iff_getElem.mp hstrict
  have hsu : ∀ u, SeriesSorted (lookupSeries series u) := lookupSeries_sorted hsorted
  cases hidx : (sortedDates series).findIdx? (fun d => strLe (cutoffKeyOf now m) d) with
  | none =>
    have hidx2 : (mergeSeries players series).findIdx?
        (fun row => strLe (cutoffKeyOf now m) row.date) = none := by
      rw [hidxmap, hidx]
    have hslice := slice_findIdx_none now hall hne hfind hm hm0 hidx2
    rw [drop_length_sub_one hne] at hslice
    refine ⟨(mergeSeries players series).getLast hne, [], hslice, ?_⟩
    intro u hu
    have h1 : (mergeSeries players series).getLast? =
        some ((mergeSeries players series).getLast hne) :=
      List.getLast?_eq_getLast _ hne
    have h2 : (mergeSeries players series).getLast? =
        some (⟨(sortedDates series).getLast hdsne,
          players.map (fun v =>
            (v, lastD (lookupSeries series v) ((sortedDates series).getLast hdsne)))⟩ :
          MergedRow) := by
      rw [hrows, List.getLast?_map, List.getLast?_eq_getLast _ hdsne]
      rfl
    have hgl := Option.some.inj (h1.symm.trans h2)
    rw [hgl]
    rw [getField_map_players _ hu]
    congr 1
    rw [lastD_eq_mostRecent (hsu u)]
    unfold mostRecentRating
    have hfil : (lookupSeries series u).filter
        (fun o => strLe o.date ((sortedDates series).getLast hdsne)) =
        (lookupSeries series u).filter (fun o => strLe o.date (cutoffKeyOf now m)) := by
      apply List.filter_congr
      intro o ho
      obtain ⟨pr, hpr, ho2⟩ := lookupSeries_obs_mem ho
      have hmemds : o.date ∈ sortedDates series := mem_sortedDates.mpr ⟨pr, hpr, o, ho2, rfl⟩
      have hA : strLe o.date ((sortedDates series).getLast hdsne) = true :=
        strLe_iff.mpr (le_getLast_of_mem hstrict hmemds hdsne)
      have hB : strLe o.date (cutoffKeyOf now m) = true := by
        have hf := List.findIdx?_eq_none_iff.mp hidx o.date hmemds
        exact strLe_iff.mpr (le_of_lt (strLe_false_iff.mp hf))
      rw [hA, hB]
    rw [hfil]
  | some i =>
    obtain ⟨hi, hpi, hbefore⟩ := findIdx?_some_spec hidx
    have hidx2 : (mergeSeries players series).findIdx?
        (fun row => strLe (cutoffKeyOf now m) row.date) = some i := by
      rw [hidxmap, hidx]
    rcases Nat.eq_zero_or_pos i with hi0 | hi0
    · subst hi0
      have hslice := slice_findIdx_zero now hall hne hfind hm hm0 hidx2
      obtain ⟨d0, ds', hds⟩ : ∃ d0 ds', sortedDates series = d0 :: ds' := by
        cases hc : sortedDates series with
        | nil => exact absurd hc hdsne
        | cons a l => exact ⟨a, l, rfl⟩
      have hrows0 : mergeSeries players series =
          (⟨d0, players.map (fun v => (v, lastD (lookupSeries series v) d0))⟩ : MergedRow) ::
            ds'.map (fun d =>
              (⟨d, players.map (fun v => (v, lastD (lookupSeries series v) d))⟩ : MergedRow)) := by
        rw [hrows, hds]
        rfl
      have hd0le : d0 ≤ cutoffKeyOf now m := hfirstrow _ _ hrows0
      have hckle : cutoffKeyOf now m ≤ d0 := by
        have h := strLe_iff.mp hpi
        have hg : (sortedDates series).get ⟨0, hi⟩ = d0 := by
          simp [hds]
        rw [hg] at h
        exact h
      have hd0ck : d0 = cutoffKeyOf now m := le_antisymm hd0le hckle
      refine ⟨_, _, hslice.trans hrows0, ?_⟩
      intro u hu
      rw [getField_map_players _ hu]
      congr 1
      rw [lastD_eq_mostRecent (hsu u), hd0ck]
    · have hprevrows : i - 1 < (mergeSeries players series).length := by
        rw [hlen]
        omega
      have hprevds : i - 1 < (sortedDates series).length := by omega
      have hprev : (mergeSeries players series).get? (i - 1) =
          some ((mergeSeries players series).get ⟨i - 1, hprevrows⟩) := by
        rw [List.get?_eq_some]
        exact ⟨hprevrows, rfl⟩
      have hslice := slice_findIdx_pos now hall hne hfind hm hm0 hidx2 hi0 hprev
      have hgetprev : (mergeSeries players series).get ⟨i - 1, hprevrows⟩ =
          ⟨(sortedDates series).get ⟨i - 1, hprevds⟩,
            players.map (fun v =>
              (v, lastD (lookupSeries series v) ((sortedDates series).get ⟨i - 1, hprevds⟩)))⟩ := by
        simp [hrows, List.get_eq_getElem, List.getElem_map]
      refine ⟨_, _, hslice, ?_⟩
      intro u hu
      rw [hgetprev]
      rw [getField_map_players _ hu]
      congr 1
      rw [lastD_eq_mostRecent (hsu u)]
      unfold mostRecentRating
      have hd_lt_ck : (sortedDates series).get ⟨i - 1, hprevds⟩ < cutoffKeyOf now m :=
        strLe_false_iff.mp (hbefore (i - 1) hprevds (by omega))
      have hck_le_di : cutoffKeyOf now m ≤ (sortedDates series).get ⟨i, hi⟩ :=
        strLe_iff.mp hpi
      have hfil : (lookupSeries series u).filter
          (fun o => strLe o.date ((sortedDates series).get ⟨i - 1, hprevds⟩)) =
          (lookupSeries series u).filter (fun o => strLe o.date (cutoffKeyOf now m)) := by
        apply List.filter_congr
        intro o ho
        by_cases hA : strLe o.date ((sortedDates series).get ⟨i - 1, hprevds⟩) = true
        · have hB : strLe o.date (cutoffKeyOf now m) = true :=
            strLe_iff.mpr (le_trans (strLe_iff.mp hA) (le_of_lt hd_lt_ck))
          rw [hA, hB]
        · have hAf : strLe o.date ((sortedDates series).get ⟨i - 1, hprevds⟩) = false :=
            Bool.not_eq_true _ ▸ hA
          cases hB : strLe o.date (cutoffKeyOf now m) with
          | false => rw [hAf]
          | true =>
            exfalso
            have ho_le_ck := strLe_iff.mp hB
            have hd_lt_o : (sortedDates series).get ⟨i - 1, hprevds⟩ < o.date :=
              strLe_false_iff.mp hAf
            obtain ⟨pr, hpr, ho2⟩ := lookupSeries_obs_mem ho
            have hmemds : o.date ∈ sortedDates series :=
              mem_sortedDates.mpr ⟨pr, hpr, o, ho2, rfl⟩
            obtain ⟨j, hj, hjd⟩ := List.mem_iff_getElem.mp hmemds
            have hij : i - 1 < j := by
              by_contra hc
              push_neg at hc
              rcases Nat.lt_or_ge j (i - 1) with hji | hji
              · have : (sortedDates series)[j] < (sortedDates series)[i - 1] :=
                  hdsget j (i - 1) hj hprevds hji
                rw [hjd] at this
                have hcontra : (sortedDates series).get ⟨i - 1, hprevds⟩ < o.date := hd_lt_o
                simp only [List.get_eq_getElem] at hcontra
                exact absurd hcontra (not_lt_of_lt this)
              · have hje : j = i - 1 := by omega
                subst hje
                simp only [List.get_eq_getElem] at hd_lt_o
                rw [hjd] at hd_lt_o
                exact absurd hd_lt_o (lt_irrefl _)
            have hji : j ≤ i := by
              by_contra hc
              push_neg at hc
              have hlt : (sortedDates series)[i] < (sortedDates series)[j] :=
                hdsget i j hi hj hc
              rw [hjd] at hlt
              have := lt_of_le_of_lt (le_trans ho_le_ck ?_) hlt
              · exact absurd this (lt_irrefl _)
              · simp only [List.get_eq_getElem] at hck_le_di
                exact hck_le_di
            have hje : j = i := by omega
            subst hje
            have hdi_eq : (sortedDates series)[j] = cutoffKeyOf now m := by
              apply le_antisymm
              · rw [hjd]
                exact ho_le_ck
              · simp only [List.get_eq_getElem] at hck_le_di
                exact hck_le_di
            have hjrows : j < (mergeSeries players series).length := by
              rw [hlen]
              exact hj
            have hrowdate : ((mergeSeries players series).get ⟨j, hjrows⟩).date =
                (sortedDates series)[j] := by
              simp [hrows, List.get_eq_getElem, List.getElem_map]
            exact hnodup j hjrows hi0 (hrowdate.trans hdi_eq)
      rw [hfil]

/-- Counterexample to C4 as stated: when the whole table lies after the
cutoff, the slice keeps the first row's observed values while the
forward-filled value as of the cutoff is null, so the first row does not
carry the values "as of the cutoff date". -/
theorem slice_non_loss_cx :
    mergeSeries ["alpha"] [("alpha", [⟨"2025-03-01", 1020⟩])] =
      [⟨"2025-03-01", [("alpha", some 1020)]⟩] ∧
    sliceSeriesByTimeframe (mergeSeries ["alpha"] [("alpha", [⟨"2025-03-01", 1020⟩])])
        "1m" [⟨"1m", some 1⟩] ⟨2025, 2, 15, 12, 0, 0⟩ =
      [⟨"2025-03-01", [("alpha", some 1020)]⟩] ∧
    mostRecentRating (lookupSeries [("alpha", [⟨"2025-03-01", 1020⟩])] "alpha")
        (cutoffKeyOf ⟨2025, 2, 15, 12, 0, 0⟩ 1) = none ∧
    ((sliceSeriesByTimeframe (mergeSeries ["alpha"] [("alpha", [⟨"2025-03-01", 1020⟩])])
        "1m" [⟨"1m", some 1⟩] ⟨2025, 2, 15, 12, 0, 0⟩).head?.map
        (fun r => getField r.values "alpha")) ≠
      some (some (mostRecentRating (lookupSeries [("alpha", [⟨"2025-03-01", 1020⟩])] "alpha")
        (cutoffKeyOf ⟨2025, 2, 15, 12, 0, 0⟩ 1))) := by decide

/-- Witness for C4 at a table whose data all lies before the cutoff: the
slice keeps one row carrying the forward-filled values as of the cutoff. -/
theorem slice_non_loss_witness :
    ∃ r rest, sliceSeriesByTimeframe
        (mergeSeries ["alpha", "beta"]
          [("alpha", [⟨"2025-01-01", 1000⟩, ⟨"2025-01-03", 1010⟩]),
           ("beta", [⟨"2025-01-02", 900⟩])])
        "1m" [⟨"1m", some 1⟩, ⟨"all", none⟩] ⟨2025, 2, 15, 12, 0, 0⟩ = r :: rest ∧
      ∀ u ∈ ["alpha", "beta"], getField r.values u =
        some (mostRecentRating
          (lookupSeries
            [("alpha", [⟨"2025-01-01", 1000⟩, ⟨"2025-01-03", 1010⟩]),
             ("beta", [⟨"2025-01-02", 900⟩])] u)
          (cutoffKeyOf ⟨2025, 2, 15, 12, 0, 0⟩ 1)) := by
  apply slice_non_loss ["alpha", "beta"]
    [("alpha", [⟨"2025-01-01", 1000⟩, ⟨"2025-01-03", 1010⟩]),
     ("beta", [⟨"2025-01-02", 900⟩])]
    "1m" [⟨"1m", some 1⟩, ⟨"all", none⟩] ⟨2025, 2, 15, 12, 0, 0⟩
    ⟨"1m", some 1⟩ 1 (by decide) (by decide) (by decide) (by decide) rfl (by decide)
  · intro r rest2 heq
    have h2 : ([⟨"2025-01-01", [("alpha", some 1000), ("beta", none)]⟩,
        ⟨"2025-01-02", [("alpha", some 1000), ("beta", some 900)]⟩,
        ⟨"2025-01-03", [("alpha", some 1010), ("beta", some 900)]⟩] : List MergedRow) =
        r :: rest2 := by
      refine Eq.trans ?_ heq
      decide
    injection h2 with h3 h4
    rw [← h3]
    exact strLe_iff.mp (by decide)
  · intro i hi hi0 heq
    have hmem := List.get_mem (mergeSeries ["alpha", "beta"]
      [("alpha", [⟨"2025-01-01", 1000⟩, ⟨"2025-01-03", 1010⟩]),
       ("beta", [⟨"2025-01-02", 900⟩])]) i hi
    have hdm := List.mem_map_of_mem MergedRow.date hmem
    rw [heq] at hdm
    have hnot : cutoffKeyOf ⟨2025, 2, 15, 12, 0, 0⟩ 1 ∉
        (mergeSeries ["alpha", "beta"]
          [("alpha", [⟨"2025-01-01", 1000⟩, ⟨"2025-01-03", 1010⟩]),
           ("beta", [⟨"2025-01-02", 900⟩])]).map MergedRow.date := by decide
    exact hnot hdm

theorem getField_setField_eq (vals : List (String × Option Int)) (u : String) (v : Option Int) :
    getField (setField vals u v) u = some v := by
  induction vals with
  | nil => simp [setField, getField, List.find?]
  | cons p rest ih =>
    by_cases hb : (p.1 == u) = true
    · simp [setField, hb, getField, List.find?_cons]
    · have hb2 : (p.1 == u) = false := Bool.not_eq_true _ ▸ hb
      unfold setField
      rw [hb2]
      simp only [Bool.false_eq_true, if_false]
      unfold getField
      rw [List.find?_cons, hb2]
      exact ih

theorem getField_setField_ne (vals : List (String × Option Int)) {u w : String}
    (v : Option Int) (hne : u ≠ w) :
    getField (setField vals u v) w = getField vals w := by
  induction vals with
  | nil =>
    have hb : (u == w) = false := beq_eq_false_iff_ne.mpr hne
    simp [setField, getField, List.find?, hb]
  | cons p rest ih =>
    by_cases hb : (p.1 == u) = true
    · have hpu : p.1 = u := eq_of_beq hb
      have hb2 : (u == w) = false := beq_eq_false_iff_ne.mpr hne
      have hb3 : (p.1 == w) = false := by
        rw [hpu]
        exact hb2
      unfold setField
      rw [hb]
      simp only [if_true]
      unfold getField
      rw [List.find?_cons, List.find?_cons, hb2, hb3]
    · have hb2 : (p.1 == u) = false := Bool.not_eq_true _ ▸ hb
      unfold setField
      rw [hb2]
      simp only [Bool.false_eq_true, if_false]
      unfold getField
      rw [List.find?_cons, List.find?_cons]
      cases hb3 : (p.1 == w) with
      | true => rfl
      | false => exact ih

theorem setField_self {vals : List (String × Option Int)} {u : String}
    (h : getField vals u = some none) : setField vals u none = vals := by
  induction vals with
  | nil => simp [getField, List.find?] at h
  | cons p rest ih =>
    unfold getField at h
    rw [List.find?_cons] at h
    cases hb : (p.1 == u) with
    | true =>
      rw [hb] at h
      simp only [Option.map_some] at h
      have hp2 : p.2 = none := Option.some.inj h
      have hp1 : p.1 = u := eq_of_beq hb
      unfold setField
      rw [hb]
      simp only [if_true]
      rw [← hp1, ← hp2]
    | false =>
      rw [hb] at h
      unfold setField
      rw [hb]
      simp only [Bool.false_eq_true, if_false]
      rw [ih h]

theorem proj_preserve_none (hidden : List String) (ps : List String)
    (vals : List (String × Option Int)) (u : String)
    (h : getField vals u = some none) :
    getField (ps.foldl (fun vals v =>
      if hidden.contains v then setField vals v none else vals) vals) u = some none := by
  induction ps generalizing vals with
  | nil => exact h
  | cons q qs ih =>
    simp only [List.foldl_cons]
    by_cases hq : hidden.contains q = true
    · rw [if_pos hq]
      by_cases hqu : q = u
      · subst hqu
        exact ih _ (getField_setField_eq vals q none)
      · exact ih _ ((getField_setField_ne vals none hqu).trans h)
    · rw [if_neg hq]
      exact ih _ h

theorem proj_getField_not_hidden (hidden : List String) (ps : List String)
    (vals : List (String × Option Int)) (u : String) (hu : hidden.contains u = false) :
    getField (ps.foldl (fun vals v =>
      if hidden.contains v then setField vals v none else vals) vals) u =
      getField vals u := by
  induction ps generalizing vals with
  | nil => rfl
  | cons q qs ih =>
    simp only [List.foldl_cons]
    by_cases hq : hidden.contains q = true
    · rw [if_pos hq]
      have hqu : q ≠ u := by
        intro hc
        subst hc
        rw [hq] at hu
        exact Bool.true_eq_false ▸ hu
      rw [ih _]
      exact getField_setField_ne vals none hqu
    · rw [if_neg hq]
      exact ih vals

theorem proj_getField_hidden (hidden : List String) (ps : List String)
    (vals : List (String × Option Int)) (u : String) (hu : u ∈ ps)
    (hh : hidden.contains u = true) :
    getField (ps.foldl (fun vals v =>
      if hidden.contains v then setField vals v none else vals) vals) u = some none := by
  induction ps generalizing vals with
  | nil => cases hu
  | cons q qs ih =>
    simp only [List.foldl_cons]
    by_cases hqs : u ∈ qs
    · exact ih _ hqs
    · have hqu : q = u := by
        rcases List.mem_cons.mp hu with h | h
        · exact h.symm
        · exact absurd h hqs
      subst hqu
      rw [if_pos hh]
      exact proj_preserve_none hidden qs _ q (getField_setField_eq vals q none)

theorem proj_id_of_all_none (hidden : List String) (ps : List String)
    (vals : List (String × Option Int))
    (h : ∀ u ∈ ps, hidden.contains u = true → getField vals u = some none) :
    ps.foldl (fun vals v =>
      if hidden.contains v then setField vals v none else vals) vals = vals := by
  induction ps with
  | nil => rfl
  | cons q qs ih =>
    simp only [List.foldl_cons]
    by_cases hq : hidden.contains q = true
    · rw [if_pos hq, setField_self (h q (List.mem_cons_self q qs) hq)]
      exact ih (fun u hu hh => h u (List.mem_cons_of_mem q hu) hh)
    · rw [if_neg hq]
      exact ih (fun u hu hh => h u (List.mem_cons_of_mem q hu) hh)

/-- C8: the visibility projection keeps the row count and every date,
keeps every non-hidden player's value, forces every hidden roster player's
value to null, is idempotent, and is the identity for an empty hidden
set. -/
theorem buildChartDataForView_spec (table : List MergedRow)
    (players hidden : List String) :
    (buildChartDataForView table players hidden).length = table.length ∧
    (buildChartDataForView table players hidden).map MergedRow.date =
      table.map MergedRow.date ∧
    (∀ u, hidden.contains u = false →
      (buildChartDataForView table players hidden).map (fun r => getField r.values u) =
        table.map (fun r => getField r.values u)) ∧
    (∀ u ∈ players, hidden.contains u = true →
      ∀ r ∈ buildChartDataForView table players hidden,
        getField r.values u = some none) ∧
    buildChartDataForView (buildChartDataForView table players hidden) players hidden =
      buildChartDataForView table players hidden ∧
    buildChartDataForView table players [] = table := by
  refine ⟨?_, ?_, ?_, ?_, ?_, ?_⟩
  · exact List.length_map table _
  · unfold buildChartDataForView
    rw [List.map_map]
    rfl
  · intro u hu
    unfold buildChartDataForView
    rw [List.map_map]
    apply List.map_congr_left
    intro r _
    exact proj_getField_not_hidden hidden players r.values u hu
  · intro u hu hh r hr
    obtain ⟨r0, _, rfl⟩ := List.mem_map.mp hr
    exact proj_getField_hidden hidden players r0.values u hu hh
  · unfold buildChartDataForView
    rw [List.map_map]
    apply List.map_congr_left
    intro r _
    have hall : ∀ u ∈ players, hidden.contains u = true →
        getField (players.foldl (fun vals v =>
          if hidden.contains v then setField vals v none else vals) r.values) u =
          some none :=
      fun u hu hh => proj_getField_hidden hidden players r.values u hu hh
    have := proj_id_of_all_none hidden players
      (players.foldl (fun vals v =>
        if hidden.contains v then setField vals v none else vals) r.values) hall
    simp only [Function.comp]
    rw [this]
  · unfold buildChartDataForView
    have : ∀ r ∈ table,
        (⟨r.date, players.foldl (fun vals v =>
          if ([] : List String).contains v then setField vals v none else vals) r.values⟩ :
          MergedRow) = r := by
      intro r _
      rw [proj_id_of_all_none [] players r.values ?_]
      intro u _ hh
      simp [List.contains] at hh
    rw [List.map_congr_left this]
    exact List.map_id' table

/-- Witness for C8: hiding "beta" nulls its field in the projected row. -/
theorem buildChartDataForView_spec_witness :
    getField (⟨"2025-01-01", [("alpha", some 1000), ("beta", none)]⟩ : MergedRow).values
      "beta" = some none := by
  have h := (buildChartDataForView_spec
    [⟨"2025-01-01", [("alpha", some 1000), ("beta", some 900)]⟩]
    ["alpha", "beta"] ["beta"]).2.2.2.1 "beta" (by decide) (by decide)
    ⟨"2025-01-01", [("alpha", some 1000), ("beta", none)]⟩ (by decide)
  exact h

theorem foldl_min_le (v : Int) (vs : List Int) : ∀ x ∈ v :: vs, vs.foldl min v ≤ x := by
  induction vs generalizing v with
  | nil =>
    intro x hx
    rw [List.mem_singleton.mp hx]
    exact le_refl _
  | cons w ws ih =>
    intro x hx
    simp only [List.foldl_cons]
    rcases List.mem_cons.mp hx with rfl | hx2
    · exact le_trans (ih (min x w) (min x w) (List.mem_cons_self _ _)) (min_le_left x w)
    · rcases List.mem_cons.mp hx2 with rfl | hx3
      · exact le_trans (ih (min v x) (min v x) (List.mem_cons_self _ _)) (min_le_right v x)
      · exact ih (min v w) x (List.mem_cons_of_mem _ hx3)

theorem le_foldl_max (v : Int) (vs : List Int) : ∀ x ∈ v :: vs, x ≤ vs.foldl max v := by
  induction vs generalizing v with
  | nil =>
    intro x hx
    rw [List.mem_singleton.mp hx]
    exact le_refl _
  | cons w ws ih =>
    intro x hx
    simp only [List.foldl_cons]
    rcases List.mem_cons.mp hx with rfl | hx2
    · exact le_trans (le_max_left x w) (ih (max x w) (max x w) (List.mem_cons_self _ _))
    · rcases List.mem_cons.mp hx2 with rfl | hx3
      · exact le_trans (le_max_right v x) (ih (max v x) (max v x) (List.mem_cons_self _ _))
      · exact ih (max v w) x (List.mem_cons_of_mem _ hx3)

theorem foldl_min_mem (v : Int) (vs : List Int) : vs.foldl min v ∈ v :: vs := by
  induction vs generalizing v with
  | nil => exact List.mem_singleton.mpr rfl
  | cons w ws ih =>
    simp only [List.foldl_cons]
    have h := ih (min v w)
    rcases List.mem_cons.mp h with he | hmem
    · rcases min_choice v w with hc | hc
      · rw [he, hc]
        exact List.mem_cons_self _ _
      · rw [he, hc]
        exact List.mem_cons_of_mem _ (List.mem_cons_self _ _)
    · exact List.mem_cons_of_mem _ (List.mem_cons_of_mem _ hmem)

theorem fdiv_mul_le_self (a : Int) : a.fdiv 100 * 100 ≤ a := by
  rw [Int.fdiv_eq_ediv a (by omega : (0 : Int) ≤ 100)]
  exact Int.ediv_mul_le a (by omega)

/-- C9 (amended: the bounds clause `lower <= min(values)` additionally
requires the collected values to be non-negative; a negative value can lie
below the clamped-at-zero lower bound): the default domain, the exact
rounding formula, and the bounds of `calculateYAxisDomain`. -/
theorem calculateYAxisDomain_spec (rows : List MergedRow) (activePlayers : List String) :
    (collectValues rows activePlayers = [] →
      calculateYAxisDomain rows activePlayers = (0, 2000)) ∧
    (∀ v vs, collectValues rows activePlayers = v :: vs →
      calculateYAxisDomain rows activePlayers =
        (if -((-(vs.foldl max v + 40)).fdiv 100) * 100 ≤
            max 0 ((vs.foldl min v - 40).fdiv 100 * 100) then
          (max 0 ((vs.foldl min v - 40).fdiv 100 * 100),
           max 0 ((vs.foldl min v - 40).fdiv 100 * 100) + 100)
        else
          (max 0 ((vs.foldl min v - 40).fdiv 100 * 100),
           -((-(vs.foldl max v + 40)).fdiv 100) * 100))) ∧
    ((∀ x ∈ collectValues rows activePlayers, 0 ≤ x) →
      ∀ v vs, collectValues rows activePlayers = v :: vs →
      (∀ x ∈ collectValues rows activePlayers,
        (calculateYAxisDomain rows activePlayers).1 ≤ x ∧
        x ≤ (calculateYAxisDomain rows activePlayers).2) ∧
      (calculateYAxisDomain rows activePlayers).1 % 100 = 0 ∧
      0 ≤ (calculateYAxisDomain rows activePlayers).1 ∧
      (calculateYAxisDomain rows activePlayers).2 % 100 = 0 ∧
      (calculateYAxisDomain rows activePlayers).1 <
        (calculateYAxisDomain rows activePlayers).2) := by
  have hdef : ∀ v vs, collectValues rows activePlayers = v :: vs →
      calculateYAxisDomain rows activePlayers =
        (if -((-(vs.foldl max v + 40)).fdiv 100) * 100 ≤
            max 0 ((vs.foldl min v - 40).fdiv 100 * 100) then
          (max 0 ((vs.foldl min v - 40).fdiv 100 * 100),
           max 0 ((vs.foldl min v - 40).fdiv 100 * 100) + 100)
        else
          (max 0 ((vs.foldl min v - 40).fdiv 100 * 100),
           -((-(vs.foldl max v + 40)).fdiv 100) * 100)) := by
    intro v vs h
    unfold calculateYAxisDomain
    rw [h]
  refine ⟨?_, hdef, ?_⟩
  · intro h
    unfold calculateYAxisDomain
    rw [h]
  · intro h0 v vs hcv
    rw [hdef v vs hcv]
    have hmnle := foldl_min_le v vs
    have hmxle := le_foldl_max v vs
    have hmn0 : 0 ≤ vs.foldl min v := h0 _ (hcv ▸ foldl_min_mem v vs)
    have hlow : (vs.foldl min v - 40).fdiv 100 * 100 ≤ vs.foldl min v - 40 :=
      fdiv_mul_le_self _
    have hupp : (-(vs.foldl max v + 40)).fdiv 100 * 100 ≤ -(vs.foldl max v + 40) :=
      fdiv_mul_le_self _
    have hL0 : (0 : Int) ≤ max 0 ((vs.foldl min v - 40).fdiv 100 * 100) := le_max_left _ _
    have hL100 : max 0 ((vs.foldl min v - 40).fdiv 100 * 100) % 100 = 0 := by
      rcases max_choice 0 ((vs.foldl min v - 40).fdiv 100 * 100) with hmc | hmc <;> rw [hmc] <;>
        omega
    have hLle : ∀ x ∈ v :: vs, max 0 ((vs.foldl min v - 40).fdiv 100 * 100) ≤ x := by
      intro x hx
      have h1 := hmnle x hx
      have h2 := h0 x (hcv ▸ hx)
      rcases max_choice 0 ((vs.foldl min v - 40).fdiv 100 * 100) with hmc | hmc <;> rw [hmc] <;>
        omega
    by_cases hcase : -((-(vs.foldl max v + 40)).fdiv 100) * 100 ≤
        max 0 ((vs.foldl min v - 40).fdiv 100 * 100)
    · rw [if_pos hcase]
      refine ⟨?_, hL100, hL0, by simp only [] ; omega, by omega⟩
      intro x hx
      have hx2 : x ∈ v :: vs := hcv ▸ hx
      refine ⟨hLle x hx2, ?_⟩
      have h2 := hmxle x hx2
      simp only
      omega
    · rw [if_neg hcase]
      push_neg at hcase
      refine ⟨?_, hL100, hL0, by simp, hcase⟩
      intro x hx
      have hx2 : x ∈ v :: vs := hcv ▸ hx
      refine ⟨hLle x hx2, ?_⟩
      have h2 := hmxle x hx2
      simp only
      omega

/-- Counterexample to C9 as stated: with the single collected value `-50`
the computed domain is `[0, 100]`, whose lower bound is not `<=` the
minimum value, so the bounds clause fails for negative inputs. -/
theorem calculateYAxisDomain_cx :
    collectValues [⟨"2025-01-01", [("alpha", some (-50))]⟩] ["alpha"] = [-50] ∧
    calculateYAxisDomain [⟨"2025-01-01", [("alpha", some (-50))]⟩] ["alpha"] = (0, 100) ∧
    ¬ ((calculateYAxisDomain [⟨"2025-01-01", [("alpha", some (-50))]⟩] ["alpha"]).1 ≤
        (-50 : Int)) := by decide

/-- Witness for C9 at the repository's own test scenario. -/
theorem calculateYAxisDomain_spec_witness :
    (calculateYAxisDomain
      [⟨"2025-01-01", [("alpha", some 1010), ("beta", some 940)]⟩,
       ⟨"2025-01-02", [("alpha", some 1142), ("beta", some 980)]⟩]
      ["alpha", "beta"]).1 % 100 = 0 :=
  ((calculateYAxisDomain_spec
    [⟨"2025-01-01", [("alpha", some 1010), ("beta", some 940)]⟩,
     ⟨"2025-01-02", [("alpha", some 1142), ("beta", some 980)]⟩]
    ["alpha", "beta"]).2.2 (by decide) 1010 [940, 1142, 980] (by decide)).2.1

/-- Witness for C2: a date present in an input series occurs among the
output dates. -/
theorem mergeSeries_dates_complete_witness :
    "2025-01-02" ∈ (mergeSeries ["alpha", "beta"]
      [("alpha", [⟨"2025-01-01", 1000⟩, ⟨"2025-01-03", 1010⟩]),
       ("beta", [⟨"2025-01-02", 900⟩])]).map MergedRow.date :=
  ((mergeSeries_dates_complete ["alpha", "beta"]
      [("alpha", [⟨"2025-01-01", 1000⟩, ⟨"2025-01-03", 1010⟩]),
       ("beta", [⟨"2025-01-02", 900⟩])]).2 "2025-01-02").mpr
    ⟨("beta", [⟨"2025-01-02", 900⟩]), by decide, ⟨"2025-01-02", 900⟩, by decide, rfl⟩

/-- Witness for C10: even a timeframe list that maps "all" to one month
causes no trimming under the literal key "all". -/
theorem slice_all_bypasses_list_witness :
    sliceSeriesByTimeframe
      [⟨"2020-01-01", [("alpha", some 1000)]⟩, ⟨"2020-01-02", [("alpha", some 1010)]⟩]
      "all" [⟨"all", some 1⟩] ⟨2025, 2, 15, 12, 0, 0⟩ =
      [⟨"2020-01-01", [("alpha", some 1000)]⟩, ⟨"2020-01-02", [("alpha", some 1010)]⟩] :=
  slice_all_bypasses_list
    [⟨"2020-01-01", [("alpha", some 1000)]⟩, ⟨"2020-01-02", [("alpha", some 1010)]⟩]
    [⟨"all", some 1⟩] ⟨2025, 2, 15, 12, 0, 0⟩
